import Mathlib

/-!
Verification of the backup-policy scheduling and lifecycle engine
(`operators/backup-operator`): a shallow embedding in Lean 4 of the data
model and the pure core of `internal/controller/backuppolicy_controller.go`,
`internal/backup/snapshot_strategy.go` and
`internal/backup/external_strategy.go`, together with theorems about the
ledger normalization, the scheduler, the concurrency guard, job-completion
handling, retention cleanup, strategy resolution and status conditions.

External collaborators (the cluster API client, the robfig cron library,
Go's `time.ParseDuration`, k8s quantity parsing, and the storage backend
constructor) are modelled at their boundary as explicit oracle parameters,
exactly as the engine consumes them.
-/

namespace BackupOp

/-- Instants of Go `time.Time`, embedded as integer nanosecond offsets from
Go's zero time `time.Time{}`. `t.After(u)` is `u < t`, `t.Before(u)` is
`t < u`, `t.Equal(u)` is `t = u`, and `t.IsZero()` is `t = timeZero`. -/
abbrev Time := Int

/-- Go's zero `time.Time` in this embedding. -/
def timeZero : Time := 0

/-- One hour, in nanoseconds (`1 * time.Hour`). -/
def hourNs : Time := 3600 * 1000000000

/-- One minute, in nanoseconds (`1 * time.Minute`). -/
def minuteNs : Time := 60 * 1000000000

/-- The `requeueAfterError` backoff constant (1 minute). -/
def requeueAfterError : Time := minuteNs

/-- A `StoredBackup` record from `api/v1alpha1/backuppolicy_types.go`.
The Go field `Namespace` is rendered `ns` (`namespace` is reserved in Lean);
`Timestamp *metav1.Time` is an `Option Time`. -/
structure StoredBackup where
  name : String
  timestamp : Option Time
  pvcName : String
  ns : String
  size : String
  location : String
  status : String
  strategy : String
deriving Repr, DecidableEq

/-- The `Retention` spec block (`MaxBackups int`, `MaxAge string`). -/
structure Retention where
  maxBackups : Int
  maxAge : String
deriving Repr, DecidableEq

/-- The `Destination` spec block. `Type` is rendered `dtype`. -/
structure Destination where
  dtype : String
  url : String
  endpoint : String
  credentialsSecret : String
  storageClass : String
deriving Repr, DecidableEq

/-- A status condition (`metav1.Condition`) restricted to the fields the
controller writes; `Status` is a `Bool` (`ConditionTrue` / `ConditionFalse`),
and the field `Type` is rendered `ctype`. -/
structure Condition where
  ctype : String
  status : Bool
  reason : String
  message : String
  lastTransitionTime : Time
deriving Repr, DecidableEq

/-- The `BackupPolicyStatus` sub-object. -/
structure BackupPolicyStatus where
  phase : String
  lastBackupTime : Option Time
  nextRunTime : Option Time
  backupCount : Nat
  storedBackups : List StoredBackup
  conditions : List Condition
deriving Repr, DecidableEq

/-- The part of `BackupPolicySpec` the verified core reads. The label
selector is irrelevant to the claims (target listing is an external list
call) and is omitted. -/
structure BackupPolicySpec where
  namespaces : List String
  schedule : String
  strategy : String
  retention : Retention
  destination : Destination
deriving Repr, DecidableEq

/-- A `BackupPolicy` object: its own name and namespace plus spec and
status. -/
structure BackupPolicy where
  name : String
  ns : String
  spec : BackupPolicySpec
  status : BackupPolicyStatus
deriving Repr, DecidableEq

/-- A target PVC, reduced to its durable identity (namespace + name). -/
structure PVC where
  name : String
  ns : String
deriving Repr, DecidableEq

/-- The observed `batchv1.JobStatus` fields the controller reads. -/
structure JobStatus where
  active : Nat
  succeeded : Nat
  failed : Nat
  completionTime : Option Time
  startTime : Option Time
deriving Repr, DecidableEq

/-- A backup `Job` as the controller sees it: identity, the two policy
labels the list calls select on, and status. A job carrying other labels
than the policy's identity simply has different `labelPolicy` /
`labelPolicyNamespace` values. -/
structure Job where
  name : String
  ns : String
  labelPolicy : String
  labelPolicyNamespace : String
  status : JobStatus
deriving Repr, DecidableEq

/-- The `backupKey` helper: `fmt.Sprintf("%s/%s", namespace, name)`. -/
def backupKey (ns name : String) : String := ns ++ "/" ++ name

/-- The `maxStatusHistory` cap (200). -/
def maxStatusHistory : Nat := 200

/-- The `storedBackupTime` helper: `time.Time{}` when the timestamp is nil. -/
def storedBackupTime (b : StoredBackup) : Time :=
  match b.timestamp with
  | none => timeZero
  | some t => t

/-- The comparator passed to `sort.SliceStable` in `normalizeStoredBackups`:
`list[i]` sorts before `list[j]` when its timestamp is later, with ties
broken by namespace then name, both descending. -/
def storedBackupLess (a b : StoredBackup) : Bool :=
  let ta := storedBackupTime a
  let tb := storedBackupTime b
  if ta = tb then
    if a.ns = b.ns then decide (b.name < a.name)
    else decide (b.ns < a.ns)
  else decide (tb < ta)

/-- Ordering relation under which a Go stable sort by `storedBackupLess`
leaves the list sorted: `a` precedes `b` when `b` is not strictly before
`a`. -/
def storedBackupLE (a b : StoredBackup) : Prop := storedBackupLess b a = false

instance : DecidableRel storedBackupLE := fun a b => by
  unfold storedBackupLE; infer_instance

/-- Embedding of `normalizeStoredBackups`: the map's values (taken in an
arbitrary order, since Go map iteration is unspecified) are stably sorted
with `storedBackupLess` and truncated to `maxStatusHistory`. Go's
`sort.SliceStable` is rendered as a stable insertion sort, which computes
the same list. -/
def normalizeStoredBackups (l : List StoredBackup) : List StoredBackup :=
  (List.insertionSort storedBackupLE l).take maxStatusHistory

/-- Specification-level descending order on records: later timestamps
first, ties broken by namespace descending, then name descending. -/
def storedDescLE (a b : StoredBackup) : Prop :=
  storedBackupTime b < storedBackupTime a ∨
    (storedBackupTime b = storedBackupTime a ∧
      (b.ns < a.ns ∨ (b.ns = a.ns ∧ b.name ≤ a.name)))

theorem storedBackupLess_iff (a b : StoredBackup) :
    storedBackupLess a b = true ↔
      storedBackupTime b < storedBackupTime a ∨
        (storedBackupTime a = storedBackupTime b ∧
          (b.ns < a.ns ∨ (a.ns = b.ns ∧ b.name < a.name))) := by
  by_cases ht : storedBackupTime a = storedBackupTime b
  · by_cases hn : a.ns = b.ns
    · simp [storedBackupLess, ht, hn]
    · simp [storedBackupLess, ht, hn]
  · simp only [storedBackupLess, ht, if_false, decide_eq_true_eq, false_and, or_false]

theorem storedBackupLE_iff (a b : StoredBackup) :
    storedBackupLE a b ↔ storedDescLE a b := by
  unfold storedBackupLE storedDescLE
  rw [← Bool.not_eq_true, storedBackupLess_iff]
  push_neg
  constructor
  · intro ⟨h1, h2⟩
    rcases lt_or_eq_of_le h1 with h | h
    · exact Or.inl h
    · obtain ⟨h3, h4⟩ := h2 h
      rcases lt_or_eq_of_le h3 with hn | hn
      · exact Or.inr ⟨h, Or.inl hn⟩
      · exact Or.inr ⟨h, Or.inr ⟨hn, h4 hn⟩⟩
  · rintro (h | ⟨h, hn | ⟨hn, hm⟩⟩)
    · exact ⟨le_of_lt h, fun he => absurd (he ▸ h) (lt_irrefl _)⟩
    · exact ⟨le_of_eq h, fun _ => ⟨le_of_lt hn, fun he => absurd (he ▸ hn) (lt_irrefl _)⟩⟩
    · exact ⟨le_of_eq h, fun _ => ⟨le_of_eq hn, fun _ => hm⟩⟩

theorem storedBackupLE_total (a b : StoredBackup) :
    storedBackupLE a b ∨ storedBackupLE b a := by
  rw [storedBackupLE_iff, storedBackupLE_iff]
  unfold storedDescLE
  rcases lt_trichotomy (storedBackupTime b) (storedBackupTime a) with h | h | h
  · exact Or.inl (Or.inl h)
  · rcases lt_trichotomy b.ns a.ns with hn | hn | hn
    · exact Or.inl (Or.inr ⟨h, Or.inl hn⟩)
    · rcases le_total b.name a.name with hm | hm
      · exact Or.inl (Or.inr ⟨h, Or.inr ⟨hn, hm⟩⟩)
      · exact Or.inr (Or.inr ⟨h.symm, Or.inr ⟨hn.symm, hm⟩⟩)
    · exact Or.inr (Or.inr ⟨h.symm, Or.inl hn⟩)
  · exact Or.inr (Or.inl h)

theorem storedDescLE_trans {a b c : StoredBackup} :
    storedDescLE a b → storedDescLE b c → storedDescLE a c := by
  unfold storedDescLE
  rintro (h1 | ⟨h1, h1'⟩) (h2 | ⟨h2, h2'⟩)
  · exact Or.inl (lt_trans h2 h1)
  · exact Or.inl (lt_of_le_of_lt (le_of_eq h2) h1)
  · exact Or.inl (lt_of_lt_of_le h2 (le_of_eq h1))
  · refine Or.inr ⟨h2.trans h1, ?_⟩
    rcases h1' with hn1 | ⟨hn1, hm1⟩ <;> rcases h2' with hn2 | ⟨hn2, hm2⟩
    · exact Or.inl (lt_trans hn2 hn1)
    · exact Or.inl (lt_of_le_of_lt (le_of_eq hn2) hn1)
    · exact Or.inl (lt_of_lt_of_le hn2 (le_of_eq hn1))
    · exact Or.inr ⟨hn2.trans hn1, hm2.trans hm1⟩

theorem storedBackupLE_trans {a b c : StoredBackup} :
    storedBackupLE a b → storedBackupLE b c → storedBackupLE a c := by
  rw [storedBackupLE_iff, storedBackupLE_iff, storedBackupLE_iff]
  exact storedDescLE_trans

instance : IsTotal StoredBackup storedBackupLE := ⟨storedBackupLE_total⟩

instance : IsTrans StoredBackup storedBackupLE :=
  ⟨fun _ _ _ => storedBackupLE_trans⟩

/-- A synthetic record used to instantiate the 205-record scenario. -/
def sampleBackup (i : Nat) : StoredBackup :=
  { name := "b", timestamp := some (i : Int), pvcName := "p", ns := "n",
    size := "", location := "loc", status := "Running", strategy := "snapshot" }

/-- An input of 205 records with pairwise distinct timestamps. -/
def sample205 : List StoredBackup := (List.range 205).map sampleBackup

/-- C1: for every input (the values of the map keyed by namespace/name, in
any order), `normalizeStoredBackups` is sorted by timestamp descending with
ties broken by namespace descending then name descending, and has length at
most 200; for 205 records with distinct timestamps the output has exactly
200 entries and the 5 oldest records are dropped. -/
theorem normalizeStoredBackups_sorted_capped (l : List StoredBackup) :
    (normalizeStoredBackups l).Pairwise storedDescLE ∧
    (normalizeStoredBackups l).length ≤ maxStatusHistory ∧
    (l.length = 205 →
      l.Pairwise (fun a b => storedBackupTime a ≠ storedBackupTime b) →
      (normalizeStoredBackups l).length = 200 ∧
      ∃ dropped : List StoredBackup,
        l.Perm (normalizeStoredBackups l ++ dropped) ∧
        dropped.length = 5 ∧
        ∀ b ∈ dropped, ∀ c ∈ normalizeStoredBackups l,
          storedBackupTime b < storedBackupTime c) := by
  have hsorted : (List.insertionSort storedBackupLE l).Pairwise storedBackupLE :=
    List.sorted_insertionSort storedBackupLE l
  have hperm : (List.insertionSort storedBackupLE l).Perm l :=
    List.perm_insertionSort storedBackupLE l
  refine ⟨?_, ?_, ?_⟩
  · exact ((List.Pairwise.sublist (List.take_sublist _ _) hsorted).imp
      fun h => (storedBackupLE_iff _ _).mp h)
  · exact List.length_take_le _ _
  · intro hlen hdist
    have hslen : (List.insertionSort storedBackupLE l).length = 205 :=
      hperm.length_eq.trans hlen
    have hnlen : (normalizeStoredBackups l).length = 200 := by
      simp only [normalizeStoredBackups, List.length_take, hslen, maxStatusHistory]
      omega
    refine ⟨hnlen, List.drop maxStatusHistory (List.insertionSort storedBackupLE l),
      ?_, ?_, ?_⟩
    · unfold normalizeStoredBackups
      rw [List.take_append_drop]
      exact hperm.symm
    · simp only [List.length_drop, hslen, maxStatusHistory]
    · have hsplit :
        (normalizeStoredBackups l ++
          List.drop maxStatusHistory (List.insertionSort storedBackupLE l)).Pairwise
            storedBackupLE := by
        unfold normalizeStoredBackups
        rw [List.take_append_drop]
        exact hsorted
      have hdists :
        (normalizeStoredBackups l ++
          List.drop maxStatusHistory (List.insertionSort storedBackupLE l)).Pairwise
            (fun a b => storedBackupTime a ≠ storedBackupTime b) := by
        unfold normalizeStoredBackups
        rw [List.take_append_drop]
        exact (hperm.pairwise_iff fun h => Ne.symm h).mpr hdist
      intro b hb c hc
      have hle : storedDescLE c b :=
        (storedBackupLE_iff _ _).mp
          ((List.pairwise_append.mp hsplit).2.2 c hc b hb)
      have hne : storedBackupTime c ≠ storedBackupTime b :=
        (List.pairwise_append.mp hdists).2.2 c hc b hb
      rcases hle with h | ⟨h, _⟩
      · exact h
      · exact absurd h.symm hne

/-- Witness for C1 at the 205-record input. -/
theorem normalizeStoredBackups_sorted_capped_witness :
    (normalizeStoredBackups sample205).length = 200 := by
  have hlen : sample205.length = 205 := by
    simp [sample205]
  have hdist : sample205.Pairwise (fun a b => storedBackupTime a ≠ storedBackupTime b) := by
    unfold sample205
    rw [List.pairwise_map]
    refine (List.pairwise_lt_range 205).imp ?_
    intro i j hij
    simp only [sampleBackup, storedBackupTime]
    exact fun h => absurd (Int.ofNat_inj.mp h) (Nat.ne_of_lt hij)
  exact ((normalizeStoredBackups_sorted_capped sample205).2.2 hlen hdist).1

/-- Boundary model of the robfig cron library: parsing a schedule string
either fails or yields the schedule's next-firing function. -/
structure CronOracle where
  parse : String → Option (Time → Time)

/-- Embedding of `nextRun`: returned pair is (next run time, whether a
parse error is propagated to the caller). A zero reference time is replaced
by `now`, an empty schedule yields the fixed one-hour fallback without
error, a parse failure yields the fallback and the error, and otherwise the
parsed schedule's next firing strictly after the reference time is used. -/
def nextRun (oracle : CronOracle) (schedule : String) (now fromT : Time) :
    Time × Bool :=
  let f := if fromT = timeZero then now else fromT
  if schedule = "" then (f + hourNs, false)
  else
    match oracle.parse schedule with
    | none => (f + hourNs, true)
    | some next => (next f, false)

/-- Embedding of `shouldBackupNow`: all calls to `time.Now()` within the
single Go invocation are rendered as the one instant `now`. -/
def shouldBackupNow (oracle : CronOracle) (policy : BackupPolicy) (now : Time) :
    Bool × Time :=
  let afterGuard :=
    match policy.status.lastBackupTime with
    | none => (true, now)
    | some last =>
      let nr := (nextRun oracle policy.spec.schedule now last).1
      if ¬ now < nr then (true, nr) else (false, nr)
  match policy.status.nextRunTime with
  | some next => if now < next then (false, next) else afterGuard
  | none => afterGuard

/-- A policy whose previously computed next-run time is in the future while
no backup has ever completed. -/
def policyFutureNext : BackupPolicy :=
  { name := "p", ns := "default",
    spec := { namespaces := [], schedule := "*/5 * * * *", strategy := "",
              retention := { maxBackups := 0, maxAge := "" },
              destination := { dtype := "", url := "", endpoint := "",
                               credentialsSecret := "", storageClass := "" } },
    status := { phase := "Active", lastBackupTime := none,
                nextRunTime := some 100, backupCount := 0,
                storedBackups := [], conditions := [] } }

/-- An oracle that fails to parse every schedule; `shouldBackupNow` never
consults it on the paths exercised here. -/
def cronOracleNone : CronOracle := ⟨fun _ => none⟩

/-- C2 counterexample: with `lastBackupTime` absent but a future
`nextRunTime` of 100 at `now = 0`, `shouldBackupNow` returns `(false, 100)`,
not `(true, now)`; the claim's second conjunct fails as stated. -/
theorem shouldBackupNow_bootstrap_counterexample :
    policyFutureNext.status.lastBackupTime = none ∧
    shouldBackupNow cronOracleNone policyFutureNext 0 ≠ (true, 0) := by
  constructor
  · rfl
  · decide

/-- C2 (amended): `shouldBackupNow` never reports `run = true` while `now`
is before a previously computed `status.nextRunTime`; and whenever
`status.lastBackupTime` is absent and no future `nextRunTime` blocks (it is
absent or not after `now`), it returns `(true, now)`. -/
theorem shouldBackupNow_guard_and_bootstrap (oracle : CronOracle)
    (policy : BackupPolicy) (now : Time) :
    (∀ next, policy.status.nextRunTime = some next → now < next →
      shouldBackupNow oracle policy now = (false, next)) ∧
    (policy.status.lastBackupTime = none →
      (∀ next, policy.status.nextRunTime = some next → ¬ now < next) →
      shouldBackupNow oracle policy now = (true, now)) := by
  constructor
  · intro next hnext hlt
    simp [shouldBackupNow, hnext, hlt]
  · intro hlast hguard
    cases hnr : policy.status.nextRunTime with
    | none => simp [shouldBackupNow, hnr, hlast]
    | some next =>
      have := hguard next hnr
      simp [shouldBackupNow, hnr, this, hlast]

/-- Witness for C2 (amended): `nextRunTime = 100` with `now = 50` blocks the
run; with no `nextRunTime` and no last backup, the run fires at `now`. -/
theorem shouldBackupNow_guard_and_bootstrap_witness :
    shouldBackupNow cronOracleNone policyFutureNext 50 = (false, 100) ∧
    shouldBackupNow cronOracleNone
      { policyFutureNext with
          status := { policyFutureNext.status with nextRunTime := none } } 50 =
      (true, 50) := by
  constructor
  · exact (shouldBackupNow_guard_and_bootstrap cronOracleNone policyFutureNext 50).1
      100 rfl (by decide)
  · exact (shouldBackupNow_guard_and_bootstrap cronOracleNone _ 50).2 rfl
      (fun next h => by simp at h)

/-- C8: when the cron schedule string is nonempty and fails to parse,
`nextRun` returns the (zero-adjusted) reference time plus one hour and
propagates the parse error to the caller. -/
theorem nextRun_parse_failure_fallback (oracle : CronOracle) (schedule : String)
    (now fromT : Time) (hne : schedule ≠ "")
    (hfail : oracle.parse schedule = none) :
    nextRun oracle schedule now fromT =
      ((if fromT = timeZero then now else fromT) + hourNs, true) := by
  simp [nextRun, hne, hfail]

/-- Witness for C8 at a concrete malformed schedule. -/
theorem nextRun_parse_failure_fallback_witness :
    nextRun cronOracleNone "not-a-cron" 7 1000 = (1000 + hourNs, true) := by
  have h := nextRun_parse_failure_fallback cronOracleNone "not-a-cron" 7 1000
    (by decide) rfl
  rw [h]
  decide

/-- A job matches the policy's label selector (`LabelPolicy` equals the
policy name and `LabelPolicyNamespace` equals the policy namespace). -/
def jobMatchesPolicy (policy : BackupPolicy) (j : Job) : Bool :=
  j.labelPolicy == policy.name && j.labelPolicyNamespace == policy.ns

/-- A job counts as active in `hasActiveBackupJobs`: it reports outstanding
work, or no success, no failure and no completion time yet. -/
def jobIsActive (j : Job) : Bool :=
  decide (0 < j.status.active) ||
    (j.status.succeeded == 0 && j.status.failed == 0 &&
      j.status.completionTime == none)

/-- The namespace set `hasActiveBackupJobs` unions: the policy's own
namespace, its declared namespaces, and each target PVC's namespace. The Go
`map[string]struct{}` is rendered as a deduplicated list; its iteration
order is irrelevant to the existential result. -/
def guardNamespaces (policy : BackupPolicy) (pvcs : List PVC) : List String :=
  (policy.ns :: (policy.spec.namespaces ++ pvcs.map PVC.ns)).dedup

/-- Embedding of `hasActiveBackupJobs` (the error-free path): per namespace
in the union, the jobs carrying the policy's labels in that namespace are
scanned and any active one makes the guard report true. -/
def hasActiveBackupJobs (policy : BackupPolicy) (pvcs : List PVC)
    (jobs : List Job) : Bool :=
  (guardNamespaces policy pvcs).any fun ns =>
    (jobs.filter fun j => j.ns == ns && jobMatchesPolicy policy j).any jobIsActive

/-- C4: the concurrency guard returns true iff some job in the union of the
policy's namespace, its declared namespaces and the target PVCs' namespaces,
labeled with the policy's identity, reports outstanding work (active count
positive) or has no success, no failure and no completion-time signal. -/
theorem hasActiveBackupJobs_iff (policy : BackupPolicy) (pvcs : List PVC)
    (jobs : List Job) :
    hasActiveBackupJobs policy pvcs jobs = true ↔
      ∃ j ∈ jobs,
        (j.ns = policy.ns ∨ j.ns ∈ policy.spec.namespaces ∨
          ∃ p ∈ pvcs, j.ns = p.ns) ∧
        j.labelPolicy = policy.name ∧ j.labelPolicyNamespace = policy.ns ∧
        (0 < j.status.active ∨
          (j.status.succeeded = 0 ∧ j.status.failed = 0 ∧
            j.status.completionTime = none)) := by
  unfold hasActiveBackupJobs guardNamespaces jobMatchesPolicy jobIsActive
  simp only [List.any_eq_true, List.mem_filter, List.mem_dedup, List.mem_cons,
    List.mem_append, List.mem_map, Bool.and_eq_true, beq_iff_eq,
    Bool.or_eq_true, decide_eq_true_eq]
  constructor
  · rintro ⟨ns, hns, j, ⟨hj, hjns, hlp, hlns⟩, hact⟩
    refine ⟨j, hj, ?_, hlp, hlns, ?_⟩
    · rcases hns with h | h | ⟨p, hp, h⟩
      · exact Or.inl (hjns.trans h)
      · exact Or.inr (Or.inl (hjns ▸ h))
      · exact Or.inr (Or.inr ⟨p, hp, hjns.trans h.symm⟩)
    · rcases hact with h | h
      · exact Or.inl h
      · exact Or.inr ⟨h.1.1, h.1.2, h.2⟩
  · rintro ⟨j, hj, hns, hlp, hlns, hact⟩
    refine ⟨j.ns, ?_, j, ⟨hj, rfl, hlp, hlns⟩, ?_⟩
    · rcases hns with h | h | ⟨p, hp, h⟩
      · exact Or.inl h
      · exact Or.inr (Or.inl h)
      · exact Or.inr (Or.inr ⟨p, hp, h.symm⟩)
    · rcases hact with h | ⟨h1, h2, h3⟩
      · exact Or.inl h
      · exact Or.inr ⟨⟨h1, h2⟩, h3⟩

/-- The condition `updateStatus` builds: `Ready`, `ConditionTrue` unless the
phase is `Error`, reason the phase, message as given. -/
def readyCondition (phase message : String) (now : Time) : Condition :=
  { ctype := "Ready",
    status := if phase = "Error" then false else true,
    reason := phase, message := message, lastTransitionTime := now }

/-- The find-and-replace loop of `updateStatus`: the first condition of type
`Ready` is replaced in place; if none exists the new condition is appended. -/
def setReadyCondition (conds : List Condition) (c : Condition) : List Condition :=
  match conds with
  | [] => [c]
  | c0 :: rest =>
    if c0.ctype = "Ready" then c :: rest else c0 :: setReadyCondition rest c

/-- Embedding of the status mutation performed by `updateStatus` (the
subsequent API write is an external call and not modelled). -/
def updateStatusPure (st : BackupPolicyStatus) (phase message : String)
    (now : Time) : BackupPolicyStatus :=
  { st with phase := phase,
            conditions := setReadyCondition st.conditions
              (readyCondition phase message now) }

/-- The conditions of type `Ready` in a condition list. -/
def readyConds (conds : List Condition) : List Condition :=
  conds.filter fun c => c.ctype = "Ready"

theorem readyConds_cons (c : Condition) (l : List Condition) :
    readyConds (c :: l) =
      if c.ctype = "Ready" then c :: readyConds l else readyConds l := by
  unfold readyConds
  rw [List.filter_cons]
  by_cases h : c.ctype = "Ready" <;> simp [h]

theorem readyConds_setReadyCondition (conds : List Condition) (c : Condition)
    (hc : c.ctype = "Ready") (h : (readyConds conds).length ≤ 1) :
    readyConds (setReadyCondition conds c) = [c] := by
  induction conds with
  | nil => simp [setReadyCondition, readyConds_cons, hc, readyConds]
  | cons c0 rest ih =>
    rw [readyConds_cons] at h
    by_cases h0 : c0.ctype = "Ready"
    · rw [if_pos h0] at h
      have hrest : readyConds rest = [] := by
        refine List.eq_nil_of_length_eq_zero ?_
        simp only [List.length_cons] at h
        omega
      show readyConds (setReadyCondition (c0 :: rest) c) = [c]
      unfold setReadyCondition
      rw [if_pos h0, readyConds_cons, if_pos hc, hrest]
    · rw [if_neg h0] at h
      show readyConds (setReadyCondition (c0 :: rest) c) = [c]
      unfold setReadyCondition
      rw [if_neg h0, readyConds_cons, if_neg h0]
      exact ih h

/-- C10: starting from a condition list with at most one `Ready` condition,
`updateStatus` leaves exactly one `Ready` condition, namely the one it
builds, whose status is `False` exactly when the phase is `Error`; in
particular the at-most-one-`Ready` invariant is preserved. -/
theorem updateStatusPure_ready_invariant (st : BackupPolicyStatus)
    (phase message : String) (now : Time)
    (h : (readyConds st.conditions).length ≤ 1) :
    readyConds (updateStatusPure st phase message now).conditions =
      [readyCondition phase message now] ∧
    (readyConds (updateStatusPure st phase message now).conditions).length ≤ 1 ∧
    (∀ c ∈ readyConds (updateStatusPure st phase message now).conditions,
      (c.status = false ↔ phase = "Error")) ∧
    (updateStatusPure st phase message now).phase = phase := by
  have hmain : readyConds (updateStatusPure st phase message now).conditions =
      [readyCondition phase message now] :=
    readyConds_setReadyCondition st.conditions _ rfl h
  refine ⟨hmain, by rw [hmain]; simp, ?_, rfl⟩
  intro c hc
  rw [hmain, List.mem_singleton] at hc
  subst hc
  unfold readyCondition
  by_cases hp : phase = "Error" <;> simp [hp]

/-- Witness for C10: a list holding one stale `Ready` condition and one
unrelated condition, updated with phase `Error`. -/
theorem updateStatusPure_ready_invariant_witness :
    readyConds (updateStatusPure
      { phase := "Active", lastBackupTime := none, nextRunTime := none,
        backupCount := 0, storedBackups := [],
        conditions := [⟨"Ready", true, "Active", "ok", 0⟩,
                       ⟨"Other", true, "r", "m", 0⟩] }
      "Error" "boom" 9).conditions = [⟨"Ready", false, "Error", "boom", 9⟩] := by
  have h := updateStatusPure_ready_invariant
    { phase := "Active", lastBackupTime := none, nextRunTime := none,
      backupCount := 0, storedBackups := [],
      conditions := [⟨"Ready", true, "Active", "ok", 0⟩,
                     ⟨"Other", true, "r", "m", 0⟩] }
    "Error" "boom" 9 (by decide)
  rw [h.1]
  decide

/-- A `BackupResult` as returned by `Strategy.Backup` (interface.go);
metadata key/value pairs are kept as an association list. -/
structure BackupResult where
  name : String
  location : String
  sizeBytes : Int
  size : String
  timestamp : Time
  metadata : List (String × String)
deriving Repr, DecidableEq

/-- Observable outcome of the per-PVC dispatch loop in `Reconcile`. -/
structure DispatchResult where
  backupErrors : Nat
  cleanedUp : List PVC
  newEntries : List StoredBackup
deriving Repr, DecidableEq

/-- Embedding of the per-PVC dispatch loop of `Reconcile` (the body of
`for _, pvc := range pvcs`): a failed `Backup` increments the error count
and `continue`s; a successful one appends a Running ledger entry and then
invokes `Cleanup` for that PVC (a cleanup error is only logged and does not
change the result). The strategy call is the oracle `outcome`. -/
def dispatchBackups (strategy : String)
    (outcome : PVC → Except String BackupResult) : List PVC → DispatchResult
  | [] => { backupErrors := 0, cleanedUp := [], newEntries := [] }
  | pvc :: rest =>
    match outcome pvc with
    | .error _ =>
      let r := dispatchBackups strategy outcome rest
      { r with backupErrors := r.backupErrors + 1 }
    | .ok result =>
      let sb : StoredBackup :=
        { name := result.name, timestamp := some result.timestamp,
          pvcName := pvc.name, ns := pvc.ns, size := result.size,
          location := result.location, status := "Running",
          strategy := strategy }
      let r := dispatchBackups strategy outcome rest
      { r with cleanedUp := pvc :: r.cleanedUp, newEntries := sb :: r.newEntries }

/-- The dispatch call for a PVC succeeded. -/
def backupOK (outcome : PVC → Except String BackupResult) (p : PVC) : Bool :=
  match outcome p with
  | .ok _ => true
  | .error _ => false

/-- C6 counterexample: with a single target whose `Backup` call fails, the
loop `continue`s before the `Cleanup` call, so `Cleanup` is invoked zero
times, not once per target as the claim states (the failure is counted). -/
theorem dispatchBackups_cleanup_skip_counterexample :
    (dispatchBackups "snapshot" (fun _ => Except.error "create failed")
        [⟨"data", "ns1"⟩]).cleanedUp = [] ∧
    (dispatchBackups "snapshot" (fun _ => Except.error "create failed")
        [⟨"data", "ns1"⟩]).backupErrors = 1 := by
  exact ⟨rfl, rfl⟩

/-- C6 (amended): in every reconciliation pass that reaches the dispatch
step, `Strategy.Cleanup` is invoked exactly once per target PVC whose
`Strategy.Backup` succeeded — a target whose backup errored is skipped by
`continue` before cleanup — and per-target backup failures are counted. -/
theorem dispatchBackups_cleanup_per_success (strategy : String)
    (outcome : PVC → Except String BackupResult) (pvcs : List PVC) :
    (dispatchBackups strategy outcome pvcs).cleanedUp =
      pvcs.filter (backupOK outcome) ∧
    (dispatchBackups strategy outcome pvcs).backupErrors =
      (pvcs.filter fun p => !(backupOK outcome p)).length := by
  induction pvcs with
  | nil => exact ⟨rfl, rfl⟩
  | cons pvc rest ih =>
    cases h : outcome pvc with
    | error e =>
      have hok : backupOK outcome pvc = false := by unfold backupOK; rw [h]
      refine ⟨?_, ?_⟩
      · simp [dispatchBackups, h, List.filter_cons, hok, ih.1]
      · simp [dispatchBackups, h, List.filter_cons, hok, ih.2]
    | ok result =>
      have hok : backupOK outcome pvc = true := by unfold backupOK; rw [h]
      refine ⟨?_, ?_⟩
      · simp [dispatchBackups, h, List.filter_cons, hok, ih.1]
      · simp [dispatchBackups, h, List.filter_cons, hok, ih.2]

/-- Witness for C6 (amended) at one failing and one succeeding target. -/
theorem dispatchBackups_cleanup_per_success_witness :
    (dispatchBackups "snapshot"
        (fun p => if p.name = "bad" then Except.error "boom"
          else Except.ok ⟨"b", "l", 0, "1Gi", 42, []⟩)
        [⟨"bad", "ns1"⟩, ⟨"good", "ns1"⟩]).cleanedUp = [⟨"good", "ns1"⟩] ∧
    (dispatchBackups "snapshot"
        (fun p => if p.name = "bad" then Except.error "boom"
          else Except.ok ⟨"b", "l", 0, "1Gi", 42, []⟩)
        [⟨"bad", "ns1"⟩, ⟨"good", "ns1"⟩]).backupErrors = 1 := by
  have h := dispatchBackups_cleanup_per_success "snapshot"
    (fun p => if p.name = "bad" then Except.error "boom"
      else Except.ok ⟨"b", "l", 0, "1Gi", 42, []⟩)
    [⟨"bad", "ns1"⟩, ⟨"good", "ns1"⟩]
  refine ⟨h.1.trans (by decide), h.2.trans (by decide)⟩

/-- Dynamic values the controller's type switch inspects inside the
unstructured `status.creationTime` map: 64-bit and 32-bit integers and
strings. (The `float64` arm of the Go switch is floating point and is left
outside this embedding; no claim depends on it.) -/
inductive JNum where
  | i64 (v : Int)
  | i32 (v : Int)
  | str (s : String)
deriving Repr, DecidableEq

/-- The `status.creationTime` nested map, when present. -/
structure CreationTime where
  seconds : Option JNum
  nanos : Option JNum
deriving Repr, DecidableEq

/-- The fields of an unstructured `VolumeSnapshot` object that
`snapshotFromUnstructured` reads. A missing `metadata.creationTimestamp`
is the zero time. -/
structure SnapObject where
  name : String
  ns : String
  creationTimestamp : Time
  readyToUse : Option Bool
  restoreSize : Option String
  creationTime : Option CreationTime
deriving Repr, DecidableEq

/-- Offset of the Unix epoch from Go's zero time, in nanoseconds
(62135596800 seconds): `time.Unix(sec, nsec)` lands at
`unixEpochNs + sec*1e9 + nsec` in this embedding. -/
def unixEpochNs : Time := 62135596800 * 1000000000

/-- The initial record `snapshotFromUnstructured` builds before inspecting
the snapshot's status fields. -/
def snapInitial (obj : SnapObject) (pvc : PVC) : StoredBackup :=
  { name := obj.name, timestamp := none, pvcName := pvc.name, ns := obj.ns,
    size := "", location := obj.ns ++ "/" ++ obj.name, status := "Pending",
    strategy := "snapshot" }

/-- The `GetCreationTimestamp` block: a nonzero metadata creation timestamp
becomes the record's timestamp. -/
def snapApplyCreationStamp (obj : SnapObject) (s : StoredBackup) : StoredBackup :=
  if obj.creationTimestamp ≠ timeZero then
    { s with timestamp := some obj.creationTimestamp }
  else s

/-- The `status.readyToUse` block: ready snapshots are Completed, not-ready
ones InProgress, and the field being absent leaves the initial status. -/
def snapApplyReady (obj : SnapObject) (s : StoredBackup) : StoredBackup :=
  match obj.readyToUse with
  | some true => { s with status := "Completed" }
  | some false => { s with status := "InProgress" }
  | none => s

/-- The `status.restoreSize` block: a parsable quantity string becomes the
record's size. -/
def snapApplySize (parseQuantity : String → Option String) (obj : SnapObject)
    (s : StoredBackup) : StoredBackup :=
  match obj.restoreSize with
  | some q =>
    match parseQuantity q with
    | some str => { s with size := str }
    | none => s
  | none => s

/-- The `status.creationTime` block: the nested map's dynamic seconds/nanos
values override the timestamp (a string value is parsed as RFC3339). -/
def snapApplyCreationTime (parseRFC3339 : String → Option Time)
    (obj : SnapObject) (s : StoredBackup) : StoredBackup :=
  match obj.creationTime with
  | none => s
  | some ct =>
    let viaString : Option Time :=
      match ct.seconds with
      | some (.str sv) => parseRFC3339 sv
      | _ => none
    let seconds : Int :=
      match ct.seconds with
      | some (.i64 v) => v
      | some (.i32 v) => v
      | _ => 0
    let nanos : Int :=
      match ct.nanos with
      | some (.i64 v) => v
      | some (.i32 v) => v
      | _ => 0
    let s1 :=
      match viaString with
      | some t => { s with timestamp := some t }
      | none => s
    if seconds ≠ 0 ∨ nanos ≠ 0 then
      { s1 with timestamp := some (unixEpochNs + seconds * 1000000000 + nanos) }
    else s1

/-- Embedding of `snapshotFromUnstructured`, as the Go function's four
sequential mutations of the initial record. Parsing of resource quantities
(`resource.ParseQuantity`, rendered canonically by `.String()`) and of
RFC3339 timestamps is performed by external k8s/Go libraries and passed in
as oracles. -/
def snapshotFromUnstructured (parseQuantity : String → Option String)
    (parseRFC3339 : String → Option Time) (obj : SnapObject) (pvc : PVC) :
    StoredBackup :=
  snapApplyCreationTime parseRFC3339 obj
    (snapApplySize parseQuantity obj
      (snapApplyReady obj
        (snapApplyCreationStamp obj (snapInitial obj pvc))))

theorem snapApplyCreationStamp_status (obj : SnapObject) (s : StoredBackup) :
    (snapApplyCreationStamp obj s).status = s.status := by
  unfold snapApplyCreationStamp
  split <;> rfl

theorem snapApplySize_status (parseQuantity : String → Option String)
    (obj : SnapObject) (s : StoredBackup) :
    (snapApplySize parseQuantity obj s).status = s.status := by
  unfold snapApplySize
  split
  · split <;> rfl
  · rfl

theorem snapApplyCreationTime_status (parseRFC3339 : String → Option Time)
    (obj : SnapObject) (s : StoredBackup) :
    (snapApplyCreationTime parseRFC3339 obj s).status = s.status := by
  unfold snapApplyCreationTime
  split
  · rfl
  · dsimp only
    repeat' split
    all_goals rfl

/-- Embedding of `ExternalStrategy.ListBackups`, which returns an empty
slice (retention is delegated to restic inside the job). -/
def externalListBackups : List StoredBackup := []

/-- A snapshot object whose `status` carries no `readyToUse` field. -/
def snapObjPending : SnapObject :=
  { name := "s1", ns := "ns1", creationTimestamp := 5,
    readyToUse := none, restoreSize := none, creationTime := none }

/-- C9 counterexample: a snapshot listed before its `readyToUse` field is
populated maps to a StoredBackup with status `Pending` — and a populated
not-ready one maps to `InProgress` — neither of which is in the claimed set
{Running, Completed, Failed}. -/
theorem snapshotFromUnstructured_status_counterexample :
    (snapshotFromUnstructured (fun _ => none) (fun _ => none) snapObjPending
        ⟨"data", "ns1"⟩).status = "Pending" ∧
    "Pending" ∉ (["Running", "Completed", "Failed"] : List String) ∧
    (snapshotFromUnstructured (fun _ => none) (fun _ => none)
        { snapObjPending with readyToUse := some false }
        ⟨"data", "ns1"⟩).status = "InProgress" := by
  refine ⟨rfl, by decide, rfl⟩

/-- C9 (amended): ledger entries created at dispatch time always carry
status `Running`; records returned by the snapshot strategy's `ListBackups`
carry a status in {Pending, InProgress, Completed}; and the external
strategy's `ListBackups` returns no records at all. -/
theorem storedBackup_status_values :
    (∀ (strategy : String) (outcome : PVC → Except String BackupResult)
        (pvcs : List PVC),
      ∀ sb ∈ (dispatchBackups strategy outcome pvcs).newEntries,
        sb.status = "Running") ∧
    (∀ (parseQuantity : String → Option String)
        (parseRFC3339 : String → Option Time) (obj : SnapObject) (pvc : PVC),
      (snapshotFromUnstructured parseQuantity parseRFC3339 obj pvc).status ∈
        (["Pending", "InProgress", "Completed"] : List String)) ∧
    externalListBackups = [] := by
  refine ⟨?_, ?_, rfl⟩
  · intro strategy outcome pvcs
    induction pvcs with
    | nil => intro sb h; exact absurd h (List.not_mem_nil sb)
    | cons pvc rest ih =>
      intro sb h
      cases ho : outcome pvc with
      | error e =>
        simp only [dispatchBackups, ho] at h
        exact ih sb h
      | ok result =>
        simp only [dispatchBackups, ho, List.mem_cons] at h
        rcases h with h | h
        · rw [h]
        · exact ih sb h
  · intro parseQuantity parseRFC3339 obj pvc
    unfold snapshotFromUnstructured
    rw [snapApplyCreationTime_status, snapApplySize_status]
    unfold snapApplyReady
    cases obj.readyToUse with
    | none => rw [snapApplyCreationStamp_status]; simp [snapInitial]
    | some ready => cases ready <;> simp

/-- Witness for C9 (amended): the single entry dispatched for one healthy
target carries status Running. -/
theorem storedBackup_status_values_witness :
    ∀ sb ∈ (dispatchBackups "snapshot"
        (fun _ => Except.ok ⟨"b", "l", 0, "1Gi", 42, []⟩)
        [⟨"data", "ns1"⟩]).newEntries, sb.status = "Running" :=
  storedBackup_status_values.1 "snapshot"
    (fun _ => Except.ok ⟨"b", "l", 0, "1Gi", 42, []⟩) [⟨"data", "ns1"⟩]

/-- The `backupTimeOrZero` helper of the snapshot strategy. -/
def backupTimeOrZero (ts : Option Time) : Time :=
  match ts with
  | none => timeZero
  | some t => t

/-- Ordering under which the `sort.Slice` call in `ListBackups` (comparator
`ti.After(tj)`) leaves the list sorted: descending timestamps. -/
def listBackupsLE (a b : StoredBackup) : Prop :=
  backupTimeOrZero b.timestamp ≤ backupTimeOrZero a.timestamp

instance : DecidableRel listBackupsLE := fun a b => by
  unfold listBackupsLE; infer_instance

instance : IsTotal StoredBackup listBackupsLE :=
  ⟨fun a b => le_total (backupTimeOrZero b.timestamp) (backupTimeOrZero a.timestamp)⟩

instance : IsTrans StoredBackup listBackupsLE :=
  ⟨fun _ _ _ hab hbc => le_trans hbc hab⟩

/-- The timestamp-descending sort `ListBackups` applies to the snapshots it
parsed (the Go sort is unstable; for the properties proved here any sorted
permutation is equivalent, and one is fixed). -/
def listBackupsOrder (l : List StoredBackup) : List StoredBackup :=
  List.insertionSort listBackupsLE l

/-- The retention loop body of `SnapshotStrategy.Cleanup`, accumulating the
records to delete: index `i` at or past a positive `maxBackups` exceeds the
count cutoff, and a record older than a parsable nonempty `maxAge` exceeds
the age cutoff (`time.ParseDuration` is the external oracle; its failure is
logged and disables the age cutoff). -/
def cleanupSelect (retention : Retention) (now : Time)
    (parseDuration : String → Option Int) : Nat → List StoredBackup →
    List StoredBackup
  | _, [] => []
  | i, b :: rest =>
    let exceedMaxBackups : Bool :=
      decide (0 < retention.maxBackups) && decide (retention.maxBackups ≤ (i : Int))
    let exceedMaxAge : Bool :=
      (retention.maxAge != "") &&
        (match b.timestamp, parseDuration retention.maxAge with
          | some t, some d => decide (d < now - t)
          | _, _ => false)
    if exceedMaxBackups || exceedMaxAge then
      b :: cleanupSelect retention now parseDuration (i + 1) rest
    else
      cleanupSelect retention now parseDuration (i + 1) rest

/-- Observable outcome of `SnapshotStrategy.Cleanup`. -/
structure CleanupOutcome where
  attempted : List StoredBackup
  deleted : List StoredBackup
  result : Except String Unit

/-- Embedding of `SnapshotStrategy.Cleanup`: the listed snapshots (given as
`snaps`, with `listErr` the listing failure, the one error path) are
sorted, the retention loop selects the excess, and each selected record is
deleted; a deletion failure (`deleteFails`) is logged and skipped without
affecting the returned value. -/
def snapshotCleanup (retention : Retention) (now : Time)
    (parseDuration : String → Option Int) (deleteFails : StoredBackup → Bool)
    (listErr : Option String) (snaps : List StoredBackup) : CleanupOutcome :=
  match listErr with
  | some e => { attempted := [], deleted := [], result := .error e }
  | none =>
    let backups := listBackupsOrder snaps
    if backups.isEmpty then { attempted := [], deleted := [], result := .ok () }
    else
      let toDelete := cleanupSelect retention now parseDuration 0 backups
      { attempted := toDelete,
        deleted := toDelete.filter fun b => !(deleteFails b),
        result := .ok () }

theorem cleanupSelect_no_age (retention : Retention) (now : Time)
    (parseDuration : String → Option Int) (hage : retention.maxAge = "")
    (hN : 0 < retention.maxBackups) :
    ∀ (l : List StoredBackup) (i : Nat),
      cleanupSelect retention now parseDuration i l =
        l.drop (retention.maxBackups.toNat - i) := by
  intro l
  induction l with
  | nil => intro i; simp [cleanupSelect]
  | cons b rest ih =>
    intro i
    unfold cleanupSelect
    by_cases hi : retention.maxBackups ≤ (i : Int)
    · have h0 : retention.maxBackups.toNat - i = 0 := by omega
      have h1 : retention.maxBackups.toNat - (i + 1) = 0 := by omega
      simp [hage, hN, hi, ih (i + 1), h0, h1]
    · have h1 : retention.maxBackups.toNat - i =
        (retention.maxBackups.toNat - (i + 1)) + 1 := by omega
      simp [hage, hN, hi, ih (i + 1), h1, List.drop_succ_cons]

/-- C5 counterexample: with `maxBackups = 1` but also `maxAge = "1h"`, a
single old snapshot (index 0, within the count cutoff) is still selected
for deletion by the age cutoff, so Cleanup does not keep the `N`
most-recent records as the claim states for every policy with
`maxBackups = N > 0`. -/
theorem snapshotCleanup_maxAge_counterexample :
    (0 : Int) < 1 ∧
    (1 : Nat) ≤ ([⟨"s1", some 0, "p", "n", "", "n/s1", "Completed", "snapshot"⟩] :
      List StoredBackup).length ∧
    (snapshotCleanup ⟨1, "1h"⟩ 10000000000000
        (fun s => if s = "1h" then some 3600000000000 else none) (fun _ => false)
        none
        [⟨"s1", some 0, "p", "n", "", "n/s1", "Completed", "snapshot"⟩]).attempted ≠
      (listBackupsOrder
        [⟨"s1", some 0, "p", "n", "", "n/s1", "Completed", "snapshot"⟩]).drop 1 := by
  refine ⟨by decide, by decide, ?_⟩
  decide

/-- C5 (amended): for a retention with `maxBackups = N > 0` and no age
cutoff (`maxAge` empty), and at least `N` listed snapshots,
`SnapshotStrategy.Cleanup` deletes exactly the records at index ≥ N of the
timestamp-descending order — each no newer than any of the N kept
most-recent records — keeps exactly N, and returns success for every
pattern of individual deletion failures. -/
theorem snapshotCleanup_retention (retention : Retention) (now : Time)
    (parseDuration : String → Option Int) (deleteFails : StoredBackup → Bool)
    (snaps : List StoredBackup) (hN : 0 < retention.maxBackups)
    (hage : retention.maxAge = "")
    (hlen : retention.maxBackups.toNat ≤ snaps.length) :
    (snapshotCleanup retention now parseDuration deleteFails none snaps).attempted =
      (listBackupsOrder snaps).drop retention.maxBackups.toNat ∧
    ((listBackupsOrder snaps).take retention.maxBackups.toNat).length =
      retention.maxBackups.toNat ∧
    (∀ b ∈ (snapshotCleanup retention now parseDuration deleteFails none
        snaps).attempted,
      ∀ c ∈ (listBackupsOrder snaps).take retention.maxBackups.toNat,
        backupTimeOrZero b.timestamp ≤ backupTimeOrZero c.timestamp) ∧
    (snapshotCleanup retention now parseDuration deleteFails none snaps).result =
      Except.ok () ∧
    (snapshotCleanup retention now parseDuration deleteFails none snaps).deleted =
      ((snapshotCleanup retention now parseDuration deleteFails none
          snaps).attempted).filter (fun b => !(deleteFails b)) := by
  have hslen : (listBackupsOrder snaps).length = snaps.length :=
    (List.perm_insertionSort listBackupsLE snaps).length_eq
  have hne : (listBackupsOrder snaps).isEmpty = false := by
    cases hL : listBackupsOrder snaps with
    | nil =>
      rw [hL] at hslen
      simp only [List.length_nil] at hslen
      omega
    | cons a l => rfl
  have hsel : cleanupSelect retention now parseDuration 0 (listBackupsOrder snaps) =
      (listBackupsOrder snaps).drop retention.maxBackups.toNat := by
    rw [cleanupSelect_no_age retention now parseDuration hage hN]
    simp
  have hout : snapshotCleanup retention now parseDuration deleteFails none snaps =
      { attempted := (listBackupsOrder snaps).drop retention.maxBackups.toNat,
        deleted := ((listBackupsOrder snaps).drop
          retention.maxBackups.toNat).filter fun b => !(deleteFails b),
        result := .ok () } := by
    unfold snapshotCleanup
    simp only [hne, Bool.false_eq_true, if_false, hsel]
  refine ⟨by rw [hout], ?_, ?_, by rw [hout], by rw [hout]⟩
  · rw [List.length_take]
    omega
  · intro b hb c hc
    rw [hout] at hb
    have hsorted : (listBackupsOrder snaps).Pairwise listBackupsLE :=
      List.sorted_insertionSort listBackupsLE snaps
    have hsplit : ((listBackupsOrder snaps).take retention.maxBackups.toNat ++
        (listBackupsOrder snaps).drop retention.maxBackups.toNat).Pairwise
          listBackupsLE := by
      rw [List.take_append_drop]
      exact hsorted
    exact (List.pairwise_append.mp hsplit).2.2 c hc b hb

/-- Witness for C5 (amended): two snapshots, `maxBackups = 1`, the older
one is deleted and the Cleanup call succeeds. -/
theorem snapshotCleanup_retention_witness :
    (snapshotCleanup ⟨1, ""⟩ 50 (fun _ => none) (fun _ => false) none
        [⟨"old", some 10, "p", "n", "", "n/old", "Completed", "snapshot"⟩,
         ⟨"new", some 20, "p", "n", "", "n/new", "Completed", "snapshot"⟩]).attempted =
      [⟨"old", some 10, "p", "n", "", "n/old", "Completed", "snapshot"⟩] ∧
    (snapshotCleanup ⟨1, ""⟩ 50 (fun _ => none) (fun _ => false) none
        [⟨"old", some 10, "p", "n", "", "n/old", "Completed", "snapshot"⟩,
         ⟨"new", some 20, "p", "n", "", "n/new", "Completed", "snapshot"⟩]).result =
      Except.ok () := by
  have h := snapshotCleanup_retention ⟨1, ""⟩ 50 (fun _ => none) (fun _ => false)
    [⟨"old", some 10, "p", "n", "", "n/old", "Completed", "snapshot"⟩,
     ⟨"new", some 20, "p", "n", "", "n/new", "Completed", "snapshot"⟩]
    (by decide) rfl (by decide)
  exact ⟨h.1.trans (by decide), h.2.2.2.1⟩

/-- Credential secret contents as read by `getStorageBackend`: Go's
`string(secret.Data[key])` yields the empty string for a missing key,
rendered as a total lookup function. -/
structure SecretData where
  data : String → String

/-- The `storage.Config` the controller assembles for `storage.NewBackend`.
The Go field `Prefix` is rendered `prefixPath`. -/
structure StorageConfig where
  ctype : String
  storageClass : String
  bucket : String
  prefixPath : String
  endpoint : String
  accessKey : String
  secretKey : String
  region : String

/-- An opaque constructed storage backend (the storage package is consumed
only through `storage.NewBackend`, modelled as an oracle). -/
structure StorageBackend where
  config : StorageConfig

/-- Splitting a character list at the first slash, the char-level rendering
of `strings.SplitN(url, "/", 2)`. -/
def breakAtSlash : List Char → List Char × Option (List Char)
  | [] => ([], none)
  | c :: cs =>
    if c = '/' then ([], some cs)
    else
      let r := breakAtSlash cs
      (c :: r.1, r.2)

/-- Embedding of `parseS3URL` (and of the identical `splitS3URL`): strip a
leading `s3://` scheme, then split bucket from key path at the first
slash. -/
def parseS3URL (url : String) : String × String :=
  let cs :=
    if ("s3://".toList).isPrefixOf url.toList then url.toList.drop 5
    else url.toList
  match breakAtSlash cs with
  | (b, none) => (⟨b⟩, "")
  | (b, some rest) => (⟨b⟩, ⟨rest⟩)

/-- Embedding of `getStorageBackend`. Reading the credentials secret from
the policy namespace and constructing the backend are external calls,
passed as the oracles `getSecret` and `newBackend`. -/
def getStorageBackend (dest : Destination)
    (getSecret : String → Except String SecretData)
    (newBackend : StorageConfig → Except String StorageBackend) :
    Except String StorageBackend :=
  if dest.dtype = "" then
    .error "destination type is required for external strategy"
  else
    let base : StorageConfig :=
      { ctype := dest.dtype, storageClass := dest.storageClass, bucket := "",
        prefixPath := "", endpoint := "", accessKey := "", secretKey := "",
        region := "" }
    let cfgE : Except String StorageConfig :=
      if dest.dtype = "s3" then
        let bp := parseS3URL dest.url
        if bp.1 = "" then
          .error "destination URL must include bucket name for S3 backend"
        else
          .ok { base with bucket := bp.1, prefixPath := bp.2,
                          endpoint := dest.endpoint }
      else if dest.dtype = "nfs" then
        .ok { base with prefixPath := dest.url, endpoint := dest.endpoint }
      else
        .ok { base with endpoint := dest.endpoint }
    match cfgE with
    | .error e => .error e
    | .ok cfg =>
      if dest.credentialsSecret ≠ "" then
        match getSecret dest.credentialsSecret with
        | .error e => .error ("failed to get credentials secret: " ++ e)
        | .ok secret =>
          let cfg2 :=
            if dest.dtype = "s3" then
              let cfgS :=
                { cfg with accessKey := secret.data "access-key",
                           secretKey := secret.data "secret-key",
                           region := secret.data "region" }
              if cfgS.endpoint = "" ∧ secret.data "endpoint" ≠ "" then
                { cfgS with endpoint := secret.data "endpoint" }
              else cfgS
            else cfg
          newBackend cfg2
      else newBackend cfg

/-- A resolved backup strategy implementation. -/
inductive StrategyKind where
  | snapshot
  | external (backend : StorageBackend)

/-- The `defaultStrategy` constant. -/
def defaultStrategy : String := "snapshot"

/-- Embedding of `getBackupStrategy`: the switch over the strategy tag. -/
def getBackupStrategy (strategy : String) (dest : Destination)
    (getSecret : String → Except String SecretData)
    (newBackend : StorageConfig → Except String StorageBackend) :
    Except String StrategyKind :=
  if strategy = "snapshot" then .ok .snapshot
  else if strategy = "external" then
    match getStorageBackend dest getSecret newBackend with
    | .error e => .error ("failed to get storage backend: " ++ e)
    | .ok b => .ok (.external b)
  else .error ("unknown backup strategy: " ++ strategy)

/-- The strategy-resolution step of `Reconcile`: an empty tag defaults to
`snapshot`; a resolution error sets phase `Error` with the error message
via `updateStatus` and requeues after the error backoff instead of
crashing. -/
def resolveStrategyOutcome (policy : BackupPolicy)
    (getSecret : String → Except String SecretData)
    (newBackend : StorageConfig → Except String StorageBackend) (now : Time) :
    Except (BackupPolicyStatus × Time) StrategyKind :=
  let strategy :=
    if policy.spec.strategy = "" then defaultStrategy else policy.spec.strategy
  match getBackupStrategy strategy policy.spec.destination getSecret newBackend with
  | .ok s => .ok s
  | .error e =>
    .error (updateStatusPure policy.status "Error" e now, requeueAfterError)

/-- C7: strategy resolution defaults an empty tag to snapshot; an unknown
tag fails resolution with phase Error, the descriptive unknown-strategy
message, and the error backoff; and strategy `external` with an empty
destination type fails resolution with phase Error, the error backoff, and
a message mentioning that the destination type is required. -/
theorem strategy_resolution (policy : BackupPolicy)
    (getSecret : String → Except String SecretData)
    (newBackend : StorageConfig → Except String StorageBackend) (now : Time) :
    (policy.spec.strategy = "" →
      resolveStrategyOutcome policy getSecret newBackend now =
        .ok StrategyKind.snapshot) ∧
    (policy.spec.strategy ≠ "" → policy.spec.strategy ≠ "snapshot" →
      policy.spec.strategy ≠ "external" →
      resolveStrategyOutcome policy getSecret newBackend now =
        .error (updateStatusPure policy.status "Error"
          ("unknown backup strategy: " ++ policy.spec.strategy) now,
          requeueAfterError) ∧
      (updateStatusPure policy.status "Error"
        ("unknown backup strategy: " ++ policy.spec.strategy) now).phase =
          "Error") ∧
    (policy.spec.strategy = "external" → policy.spec.destination.dtype = "" →
      ∃ msg,
        resolveStrategyOutcome policy getSecret newBackend now =
          .error (updateStatusPure policy.status "Error" msg now,
            requeueAfterError) ∧
        (updateStatusPure policy.status "Error" msg now).phase = "Error" ∧
        ∃ pre post, msg = pre ++ "destination type is required" ++ post) := by
  refine ⟨?_, ?_, ?_⟩
  · intro h
    simp [resolveStrategyOutcome, h, defaultStrategy, getBackupStrategy]
  · intro h1 h2 h3
    refine ⟨?_, rfl⟩
    simp [resolveStrategyOutcome, h1, h2, h3, getBackupStrategy]
  · intro h1 h2
    refine ⟨"failed to get storage backend: destination type is required for external strategy",
      ?_, rfl, "failed to get storage backend: ", " for external strategy", ?_⟩
    · have hne : policy.spec.strategy ≠ "" := by rw [h1]; decide
      have hns : policy.spec.strategy ≠ "snapshot" := by rw [h1]; decide
      simp [resolveStrategyOutcome, hne, hns, h1, getBackupStrategy,
        getStorageBackend, h2]
    · decide

/-- Witness for C7: a policy with strategy `external` and empty destination
type fails resolution with the destination-type message, and the same
policy with an empty tag resolves to the snapshot strategy. -/
theorem strategy_resolution_witness :
    (resolveStrategyOutcome
        { name := "p", ns := "default",
          spec := { namespaces := [], schedule := "", strategy := "external",
                    retention := ⟨0, ""⟩,
                    destination := { dtype := "", url := "", endpoint := "",
                                     credentialsSecret := "",
                                     storageClass := "" } },
          status := { phase := "", lastBackupTime := none, nextRunTime := none,
                      backupCount := 0, storedBackups := [], conditions := [] } }
        (fun _ => Except.error "no secret") (fun c => Except.ok ⟨c⟩) 3).isOk =
      false := by
  obtain ⟨msg, heq, -, -⟩ := (strategy_resolution
    { name := "p", ns := "default",
      spec := { namespaces := [], schedule := "", strategy := "external",
                retention := ⟨0, ""⟩,
                destination := { dtype := "", url := "", endpoint := "",
                                 credentialsSecret := "", storageClass := "" } },
      status := { phase := "", lastBackupTime := none, nextRunTime := none,
                  backupCount := 0, storedBackups := [], conditions := [] } }
    (fun _ => Except.error "no secret") (fun c => Except.ok ⟨c⟩) 3).2.2 rfl rfl
  rw [heq]
  rfl

/-- The namespace set `handleJobCompletion` lists jobs in: the policy's own
namespace, its declared namespaces, and the (nonempty) namespaces of the
stored records. -/
def hjcNamespaces (policy : BackupPolicy) : List String :=
  policy.ns :: (policy.spec.namespaces ++
    policy.status.storedBackups.filterMap fun s =>
      if s.ns ≠ "" then some s.ns else none)

/-- The `jobsByKey` map of `handleJobCompletion`, as a lookup function: the
jobs carrying the policy's labels in one of the listed namespaces, keyed by
`backupKey(namespace, name)`. Job (namespace, name) pairs are unique in a
cluster, so the first match is the map entry. -/
def jobsByKey (policy : BackupPolicy) (jobs : List Job) (key : String) :
    Option Job :=
  (jobs.filter fun j =>
      (hjcNamespaces policy).contains j.ns &&
        j.labelPolicy == policy.name && j.labelPolicyNamespace == policy.ns).find?
    fun j => backupKey j.ns j.name == key

/-- One iteration of the record loop in `handleJobCompletion`: the possibly
transitioned record, the completion time contributed to `latestCompletion`
(set only on a success transition whose job carries a completion time), and
whether this record set `changed`. -/
def completeOne (lookup : String → Option Job) (s : StoredBackup) :
    StoredBackup × Option Time × Bool :=
  match lookup (backupKey s.ns s.name) with
  | none => (s, none, false)
  | some job =>
    if 0 < job.status.succeeded ∧ s.status ≠ "Completed" then
      match job.status.completionTime with
      | some t => ({ s with status := "Completed", timestamp := some t }, some t, true)
      | none => ({ s with status := "Completed" }, none, true)
    else if 0 < job.status.failed ∧ s.status ≠ "Failed" then
      ({ s with status := "Failed" }, none, true)
    else (s, none, false)

/-- The record loop of `handleJobCompletion` applied to every stored
record. -/
def pendingOuts (policy : BackupPolicy) (jobs : List Job) :
    List (StoredBackup × Option Time × Bool) :=
  policy.status.storedBackups.map (completeOne (jobsByKey policy jobs))

/-- The running `latestCompletion` maximum: updated whenever a contributed
completion time is strictly after the accumulator (initially the zero
time). -/
def latestOf : List (Option Time) → Time → Time
  | [], acc => acc
  | none :: rest, acc => latestOf rest acc
  | some t :: rest, acc => latestOf rest (if acc < t then t else acc)

/-- The `latestCompletion` value after the record loop. -/
def latestCompletion (policy : BackupPolicy) (jobs : List Job) : Time :=
  latestOf ((pendingOuts policy jobs).map fun o => o.2.1) timeZero

/-- Embedding of the in-memory status mutation of `handleJobCompletion`:
transitioned records, and — when some completion was observed — the
advanced `lastBackupTime` and recomputed `nextRunTime` (a cron parse error
falls back to one hour after the latest completion). The boolean is the
`changed` flag guarding the status write. -/
def handleJobCompletionCore (oracle : CronOracle) (policy : BackupPolicy)
    (jobs : List Job) (now : Time) : BackupPolicyStatus × Bool :=
  let outs := pendingOuts policy jobs
  let latest := latestCompletion policy jobs
  let changed := outs.any fun o => o.2.2
  let st1 := { policy.status with storedBackups := outs.map Prod.fst }
  let st2 :=
    if latest = timeZero then st1
    else
      let lb :=
        match st1.lastBackupTime with
        | none => some latest
        | some old => if old < latest then some latest else some old
      let nrp := nextRun oracle policy.spec.schedule now latest
      let nr := if nrp.2 then latest + hourNs else nrp.1
      { st1 with lastBackupTime := lb, nextRunTime := some nr }
  (st2, changed)

/-- Embedding of `handleJobCompletion`: the status is persisted (some) only
when the loop changed something, otherwise no write happens (none). -/
def handleJobCompletion (oracle : CronOracle) (policy : BackupPolicy)
    (jobs : List Job) (now : Time) : Option BackupPolicyStatus :=
  let core := handleJobCompletionCore oracle policy jobs now
  if core.2 then some core.1 else none

/-- A record/job pair for which the loop body records a transition: success
into Completed, or (otherwise) failure into Failed. -/
def jobTransitions (s : StoredBackup) (j : Job) : Prop :=
  (0 < j.status.succeeded ∧ s.status ≠ "Completed") ∨
    (¬(0 < j.status.succeeded ∧ s.status ≠ "Completed") ∧
      0 < j.status.failed ∧ s.status ≠ "Failed")

/-- A completion time contributed to `latestCompletion` by some stored
record's success transition. -/
def observedCompletion (policy : BackupPolicy) (jobs : List Job) (t : Time) :
    Prop :=
  ∃ s ∈ policy.status.storedBackups, ∃ j,
    jobsByKey policy jobs (backupKey s.ns s.name) = some j ∧
    0 < j.status.succeeded ∧ s.status ≠ "Completed" ∧
    j.status.completionTime = some t

theorem jobsByKey_mem {policy : BackupPolicy} {jobs : List Job} {key : String}
    {j : Job} (h : jobsByKey policy jobs key = some j) : j ∈ jobs := by
  unfold jobsByKey at h
  exact (List.mem_filter.mp (List.mem_of_find?_eq_some h)).1

theorem completeOne_ct_iff (lookup : String → Option Job) (s : StoredBackup)
    (t : Time) :
    (completeOne lookup s).2.1 = some t ↔
      ∃ j, lookup (backupKey s.ns s.name) = some j ∧
        0 < j.status.succeeded ∧ s.status ≠ "Completed" ∧
        j.status.completionTime = some t := by
  unfold completeOne
  cases h : lookup (backupKey s.ns s.name) with
  | none => simp
  | some job =>
    by_cases hc : 0 < job.status.succeeded ∧ s.status ≠ "Completed"
    · cases hct : job.status.completionTime with
      | none => simp [hc, hct]
      | some u => simp [hc, hct, eq_comm]
    · by_cases hf : 0 < job.status.failed ∧ s.status ≠ "Failed" <;>
        (simp [hc, hf]; try tauto)

theorem completeOne_changed_iff (lookup : String → Option Job)
    (s : StoredBackup) :
    (completeOne lookup s).2.2 = true ↔
      ∃ j, lookup (backupKey s.ns s.name) = some j ∧ jobTransitions s j := by
  unfold completeOne jobTransitions
  cases h : lookup (backupKey s.ns s.name) with
  | none => simp
  | some job =>
    by_cases hc : 0 < job.status.succeeded ∧ s.status ≠ "Completed"
    · cases hct : job.status.completionTime with
      | none => simp [hc, hct]
      | some u => simp [hc, hct]
    · by_cases hf : 0 < job.status.failed ∧ s.status ≠ "Failed" <;>
        (simp [hc, hf]; try tauto)

theorem completeOne_success {lookup : String → Option Job} {s : StoredBackup}
    {j : Job} {t : Time} (hs : s.status = "Running")
    (hl : lookup (backupKey s.ns s.name) = some j)
    (hsucc : 0 < j.status.succeeded) (hct : j.status.completionTime = some t) :
    completeOne lookup s =
      ({ s with status := "Completed", timestamp := some t }, some t, true) := by
  have hc : 0 < j.status.succeeded ∧ s.status ≠ "Completed" := by
    rw [hs]; exact ⟨hsucc, by decide⟩
  unfold completeOne
  rw [hl]
  dsimp only
  rw [if_pos hc, hct]

theorem completeOne_failed {lookup : String → Option Job} {s : StoredBackup}
    {j : Job} (hs : s.status = "Running")
    (hl : lookup (backupKey s.ns s.name) = some j)
    (hsucc : j.status.succeeded = 0) (hf : 0 < j.status.failed) :
    completeOne lookup s = ({ s with status := "Failed" }, none, true) := by
  have hc : ¬ (0 < j.status.succeeded ∧ s.status ≠ "Completed") := by
    rw [hsucc]; simp
  have hfc : 0 < j.status.failed ∧ s.status ≠ "Failed" := by
    rw [hs]; exact ⟨hf, by decide⟩
  unfold completeOne
  rw [hl]
  dsimp only
  rw [if_neg hc, if_pos hfc]

theorem latestOf_ge_init : ∀ (l : List (Option Time)) (acc : Time),
    acc ≤ latestOf l acc := by
  intro l
  induction l with
  | nil => intro acc; exact le_refl acc
  | cons o rest ih =>
    intro acc
    cases o with
    | none => exact ih acc
    | some t =>
      unfold latestOf
      refine le_trans ?_ (ih (if acc < t then t else acc))
      by_cases h : acc < t <;> simp [h]
      exact le_of_lt h

theorem latestOf_cases : ∀ (l : List (Option Time)) (acc : Time),
    latestOf l acc = acc ∨ ∃ t, some t ∈ l ∧ latestOf l acc = t := by
  intro l
  induction l with
  | nil => intro acc; exact Or.inl rfl
  | cons o rest ih =>
    intro acc
    cases o with
    | none =>
      rcases ih acc with h | ⟨t, ht, he⟩
      · exact Or.inl h
      · exact Or.inr ⟨t, List.mem_cons_of_mem _ ht, he⟩
    | some u =>
      rcases ih (if acc < u then u else acc) with h | ⟨t, ht, he⟩
      · by_cases hu : acc < u
        · rw [if_pos hu] at h
          refine Or.inr ⟨u, List.mem_cons_self _ _, ?_⟩
          show latestOf rest (if acc < u then u else acc) = u
          rw [if_pos hu]
          exact h
        · rw [if_neg hu] at h
          refine Or.inl ?_
          show latestOf rest (if acc < u then u else acc) = acc
          rw [if_neg hu]
          exact h
      · exact Or.inr ⟨t, List.mem_cons_of_mem _ ht, he⟩

theorem latestOf_upper : ∀ (l : List (Option Time)) (acc t : Time),
    some t ∈ l → t ≤ latestOf l acc := by
  intro l
  induction l with
  | nil => intro acc t h; exact absurd h (List.not_mem_nil _)
  | cons o rest ih =>
    intro acc t h
    rcases List.mem_cons.mp h with he | hm
    · subst he
      show t ≤ latestOf rest (if acc < t then t else acc)
      refine le_trans ?_ (latestOf_ge_init rest _)
      by_cases hu : acc < t <;> simp [hu]
      exact le_of_not_lt hu
    · cases o with
      | none => exact ih acc t hm
      | some u => exact ih (if acc < u then u else acc) t hm

theorem observedCompletion_iff (policy : BackupPolicy) (jobs : List Job)
    (t : Time) :
    observedCompletion policy jobs t ↔
      some t ∈ (pendingOuts policy jobs).map (fun o => o.2.1) := by
  unfold observedCompletion pendingOuts
  rw [List.map_map, List.mem_map]
  simp only [Function.comp_apply]
  constructor
  · rintro ⟨s, hs, j, hj, hsucc, hstat, hct⟩
    exact ⟨s, hs, (completeOne_ct_iff _ s t).mpr ⟨j, hj, hsucc, hstat, hct⟩⟩
  · rintro ⟨s, hs, he⟩
    obtain ⟨j, hj, hsucc, hstat, hct⟩ := (completeOne_ct_iff _ s t).mp he
    exact ⟨s, hs, j, hj, hsucc, hstat, hct⟩

theorem handleJobCompletionCore_stored (oracle : CronOracle)
    (policy : BackupPolicy) (jobs : List Job) (now : Time) :
    (handleJobCompletionCore oracle policy jobs now).1.storedBackups =
      policy.status.storedBackups.map
        (fun s => (completeOne (jobsByKey policy jobs) s).1) := by
  unfold handleJobCompletionCore
  dsimp only
  split
  · unfold pendingOuts
    rw [List.map_map]
    rfl
  · unfold pendingOuts
    rw [List.map_map]
    rfl

theorem handleJobCompletionCore_changed (oracle : CronOracle)
    (policy : BackupPolicy) (jobs : List Job) (now : Time) :
    (handleJobCompletionCore oracle policy jobs now).2 =
      (pendingOuts policy jobs).any (fun o => o.2.2) := by
  unfold handleJobCompletionCore
  dsimp only

theorem handleJobCompletionCore_latest (oracle : CronOracle)
    (policy : BackupPolicy) (jobs : List Job) (now : Time)
    (h : latestCompletion policy jobs ≠ timeZero) :
    (handleJobCompletionCore oracle policy jobs now).1.lastBackupTime =
      (match policy.status.lastBackupTime with
        | none => some (latestCompletion policy jobs)
        | some old =>
          if old < latestCompletion policy jobs then
            some (latestCompletion policy jobs)
          else some old) ∧
    (handleJobCompletionCore oracle policy jobs now).1.nextRunTime =
      some (if (nextRun oracle policy.spec.schedule now
            (latestCompletion policy jobs)).2 then
          latestCompletion policy jobs + hourNs
        else (nextRun oracle policy.spec.schedule now
          (latestCompletion policy jobs)).1) := by
  unfold handleJobCompletionCore
  dsimp only
  rw [if_neg h]
  exact ⟨rfl, rfl⟩

/-- C3: in `handleJobCompletion`, every stored record still Running whose
matching job reports success with a completion time transitions to
Completed and takes that completion timestamp; one whose matching job
reports failure (and no success) transitions to Failed; when completions
are observed, `lastBackupTime` advances to the maximum observed completion
time (given it exceeds the previous value) and `nextRunTime` becomes the
schedule's next firing after that time; and the status is persisted exactly
when at least one transition occurred. -/
theorem handleJobCompletion_transitions (oracle : CronOracle)
    (policy : BackupPolicy) (jobs : List Job) (now : Time)
    (hct : ∀ j ∈ jobs, ∀ t, j.status.completionTime = some t → timeZero < t) :
    (∀ (i : Nat) (s : StoredBackup) (j : Job) (t : Time),
      policy.status.storedBackups[i]? = some s →
      s.status = "Running" →
      jobsByKey policy jobs (backupKey s.ns s.name) = some j →
      0 < j.status.succeeded → j.status.completionTime = some t →
      (handleJobCompletionCore oracle policy jobs now).1.storedBackups[i]? =
        some { s with status := "Completed", timestamp := some t }) ∧
    (∀ (i : Nat) (s : StoredBackup) (j : Job),
      policy.status.storedBackups[i]? = some s →
      s.status = "Running" →
      jobsByKey policy jobs (backupKey s.ns s.name) = some j →
      j.status.succeeded = 0 → 0 < j.status.failed →
      (handleJobCompletionCore oracle policy jobs now).1.storedBackups[i]? =
        some { s with status := "Failed" }) ∧
    (∀ M, observedCompletion policy jobs M →
      (∀ t, observedCompletion policy jobs t → t ≤ M) →
      (policy.status.lastBackupTime = none ∨
        ∃ old, policy.status.lastBackupTime = some old ∧ old < M) →
      (handleJobCompletionCore oracle policy jobs now).1.lastBackupTime =
        some M ∧
      (policy.spec.schedule ≠ "" →
        ∀ f, oracle.parse policy.spec.schedule = some f →
          (handleJobCompletionCore oracle policy jobs now).1.nextRunTime =
            some (f M))) ∧
    ((handleJobCompletionCore oracle policy jobs now).2 = true ↔
      ∃ s ∈ policy.status.storedBackups, ∃ j,
        jobsByKey policy jobs (backupKey s.ns s.name) = some j ∧
        jobTransitions s j) ∧
    ((handleJobCompletionCore oracle policy jobs now).2 = false →
      handleJobCompletion oracle policy jobs now = none) ∧
    ((handleJobCompletionCore oracle policy jobs now).2 = true →
      handleJobCompletion oracle policy jobs now =
        some (handleJobCompletionCore oracle policy jobs now).1) := by
  refine ⟨?_, ?_, ?_, ?_, ?_, ?_⟩
  · intro i s j t hi hs hl hsucc hctj
    rw [handleJobCompletionCore_stored, List.getElem?_map, hi,
      Option.map_some', completeOne_success hs hl hsucc hctj]
  · intro i s j hi hs hl hsucc hf
    rw [handleJobCompletionCore_stored, List.getElem?_map, hi,
      Option.map_some', completeOne_failed hs hl hsucc hf]
  · intro M hM hub hold
    have hmem : some M ∈ (pendingOuts policy jobs).map (fun o => o.2.1) :=
      (observedCompletion_iff policy jobs M).mp hM
    have hMle : M ≤ latestCompletion policy jobs :=
      latestOf_upper _ timeZero M hmem
    have hMpos : timeZero < M := by
      obtain ⟨s, hs, j, hj, hsucc, hstat, hc⟩ := hM
      exact hct j (jobsByKey_mem hj) M hc
    have hlatest : latestCompletion policy jobs = M := by
      rcases latestOf_cases ((pendingOuts policy jobs).map fun o => o.2.1)
          timeZero with h | ⟨t, htm, hte⟩
      · exfalso
        unfold latestCompletion at hMle
        rw [h] at hMle
        exact absurd (lt_of_lt_of_le hMpos hMle) (lt_irrefl _)
      · have h1 : t ≤ M := hub t ((observedCompletion_iff policy jobs t).mpr htm)
        have h2 : M ≤ t := by
          unfold latestCompletion at hMle
          rw [hte] at hMle
          exact hMle
        unfold latestCompletion
        rw [hte]
        exact le_antisymm h1 h2
    have hnz : latestCompletion policy jobs ≠ timeZero := by
      rw [hlatest]
      exact ne_of_gt hMpos
    obtain ⟨hlb, hnr⟩ := handleJobCompletionCore_latest oracle policy jobs now hnz
    constructor
    · rw [hlb, hlatest]
      rcases hold with h | ⟨old, hold', holdlt⟩
      · rw [h]
      · rw [hold']
        show (if old < M then some M else some old) = some M
        rw [if_pos holdlt]
    · intro hsched f hf
      rw [hnr, hlatest]
      have hnrv : nextRun oracle policy.spec.schedule now M = (f M, false) := by
        simp [nextRun, hsched, hf, ne_of_gt hMpos]
      rw [hnrv]
      rfl
  · rw [handleJobCompletionCore_changed, List.any_eq_true]
    constructor
    · rintro ⟨o, ho, hoe⟩
      unfold pendingOuts at ho
      obtain ⟨s, hs, hoeq⟩ := List.mem_map.mp ho
      rw [← hoeq] at hoe
      obtain ⟨j, hj, htr⟩ := (completeOne_changed_iff _ s).mp hoe
      exact ⟨s, hs, j, hj, htr⟩
    · rintro ⟨s, hs, j, hj, htr⟩
      refine ⟨completeOne (jobsByKey policy jobs) s, ?_, ?_⟩
      · unfold pendingOuts
        exact List.mem_map_of_mem _ hs
      · exact (completeOne_changed_iff _ s).mpr ⟨j, hj, htr⟩
  · intro h
    simp [handleJobCompletion, h]
  · intro h
    simp [handleJobCompletion, h]

/-- The stored record of the job-completion scenario: a Running ledger
entry. -/
def jcStored : StoredBackup :=
  { name := "b1", timestamp := some 100, pvcName := "data", ns := "ns1",
    size := "", location := "ns1/b1", status := "Running",
    strategy := "snapshot" }

/-- The policy of the job-completion scenario. -/
def jcPolicy : BackupPolicy :=
  { name := "pol", ns := "ns1",
    spec := { namespaces := [], schedule := "sched", strategy := "",
              retention := ⟨0, ""⟩, destination := ⟨"", "", "", "", ""⟩ },
    status := { phase := "Active", lastBackupTime := none, nextRunTime := none,
                backupCount := 1, storedBackups := [jcStored],
                conditions := [] } }

/-- The matching job of the scenario: succeeded, completed at time 5000. -/
def jcJob : Job :=
  { name := "b1", ns := "ns1", labelPolicy := "pol",
    labelPolicyNamespace := "ns1",
    status := { active := 0, succeeded := 1, failed := 0,
                completionTime := some 5000, startTime := none } }

/-- A cron oracle whose schedule fires 300 after the reference time. -/
def jcOracle : CronOracle :=
  ⟨fun s => if s = "sched" then some (fun t => t + 300) else none⟩

/-- Witness for C3: the Running record transitions to Completed with
timestamp 5000, lastBackupTime advances to 5000 and nextRunTime becomes
5300. -/
theorem handleJobCompletion_transitions_witness :
    (handleJobCompletionCore jcOracle jcPolicy [jcJob] 0).1.storedBackups[0]? =
      some { jcStored with status := "Completed", timestamp := some 5000 } ∧
    (handleJobCompletionCore jcOracle jcPolicy [jcJob] 0).1.lastBackupTime =
      some 5000 ∧
    (handleJobCompletionCore jcOracle jcPolicy [jcJob] 0).1.nextRunTime =
      some 5300 := by
  have hct : ∀ j ∈ [jcJob], ∀ t, j.status.completionTime = some t →
      timeZero < t := by
    intro j hj t ht
    rw [List.mem_singleton] at hj
    subst hj
    have h5 : t = 5000 := by
      have : (some 5000 : Option Time) = some t := ht
      exact (Option.some_inj.mp this).symm
    rw [h5]
    decide
  have h := handleJobCompletion_transitions jcOracle jcPolicy [jcJob] 0 hct
  have hlk : jobsByKey jcPolicy [jcJob] (backupKey jcStored.ns jcStored.name) =
      some jcJob := by decide
  have hobs : observedCompletion jcPolicy [jcJob] 5000 :=
    ⟨jcStored, by decide, jcJob, hlk, by decide, by decide, rfl⟩
  have hub : ∀ t, observedCompletion jcPolicy [jcJob] t → t ≤ 5000 := by
    rintro t ⟨s, hs, j, hj, hsucc, hstat, hcj⟩
    have hsj : s = jcStored := by
      have h1 : s ∈ [jcStored] := hs
      exact List.mem_singleton.mp h1
    subst hsj
    rw [hlk] at hj
    have hjj : jcJob = j := Option.some_inj.mp hj
    rw [← hjj] at hcj
    have h2 : (some 5000 : Option Time) = some t := hcj
    have h3 : (5000 : Time) = t := Option.some_inj.mp h2
    exact le_of_eq h3.symm
  refine ⟨?_, ?_, ?_⟩
  · exact h.1 0 jcStored jcJob 5000 rfl rfl hlk (by decide) rfl
  · exact (h.2.2.1 5000 hobs hub (Or.inl rfl)).1
  · have h4 := (h.2.2.1 5000 hobs hub (Or.inl rfl)).2 (by decide)
      (fun t => t + 300) rfl
    rw [h4]
    decide

end BackupOp
